import Mathlib

/-!
# Steering estimator of `SteeringAlgorithm/src/template-opencv.cpp`

A shallow embedding of `processContours` and `processImage` and of the three
process-wide variables `steeringAngle`, `blueCount` and `clockWise`.

Modelling conventions.

* C++ `int` values are `Int`; `/` on two `int`s is `Int.tdiv` (truncation
  toward zero).  The counter `blueCount` is not wrapped: signed overflow is
  undefined in C++ and needs more than `2^31 - 1` frames.
* C++ `double` values are exact rationals (`ℚ`): the literals `0.4`, `0.5`,
  `0.12`, `0.1`, `0.15` are the decimal fractions they denote, and `*`, `/`
  are exact.  The conversion `double → int` is truncation toward zero
  (`toInt`); for `0 ≤ height < 2^31` the IEEE products `height * 0.4` and
  `height * 0.5` truncate to the same integers as the exact ones.  The
  quotient by `midX` is the exact one for `midX ≠ 0`; the two branches that
  divide need a marker strictly left of `midX`, so `midX = 0` would take a
  negative x-coordinate, which no contour point of an image has.
* The OpenCV pipeline that turns the pixels of the region of interest into
  two contour lists (`cvtColor`, `inRange`, `morphologyEx`, `GaussianBlur`,
  `cv::findContours`) is library code; a frame is given by its size and by
  the two contour lists that pipeline returns.
-/

namespace SteeringAlgorithm

/-! ## Data model -/

/-- The type `cv::Point`: integer pixel coordinates. -/
structure Point where
  x : Int
  y : Int
deriving DecidableEq, Repr

/-- One contour as `cv::findContours` returns it: `std::vector<cv::Point>`. -/
abbrev Contour := List Point

/-- The type `cv::Rect`. -/
structure Rect where
  x : Int
  y : Int
  width : Int
  height : Int
deriving DecidableEq, Repr

/-- The method `cv::Rect::area()`. -/
def Rect.area (r : Rect) : Int := r.width * r.height

/-- The library function `cv::boundingRect` on a point set: the smallest
upright rectangle holding every point (`width = xmax - xmin + 1`), and the
empty rectangle for an empty point set. -/
def boundingRect : Contour → Rect
  | [] => ⟨0, 0, 0, 0⟩
  | p :: ps =>
    let xmin := ps.foldl (fun m q => min m q.x) p.x
    let xmax := ps.foldl (fun m q => max m q.x) p.x
    let ymin := ps.foldl (fun m q => min m q.y) p.y
    let ymax := ps.foldl (fun m q => max m q.y) p.y
    ⟨xmin, ymin, xmax - xmin + 1, ymax - ymin + 1⟩

/-- The globals `steeringAngle`, `blueCount`, `clockWise` (lines 31-33). -/
structure State where
  steeringAngle : ℚ
  blueCount : Int
  clockWise : Bool
deriving DecidableEq, Repr

/-- The initialisers of the three globals: `0`, `0`, `false`. -/
def State.init : State := ⟨0, 0, false⟩

/-- What `processImage` reads of one frame: `result.rows`, `result.cols` and
the results of `findContours(blueMask)` and `findContours(yellowMask)`. -/
structure Frame where
  rows : Int
  cols : Int
  blueContours : List Contour
  yellowContours : List Contour
deriving Repr

/-! ## `processContours` (lines 42-57) -/

/-- The overlay and the diagnostic value `processContours` computes.
`boxes` are the rectangles passed to `cv::rectangle`, in drawing order;
`angleArgs` holds the arguments `(midpointY, midpointX)` of the last
`atan2` call stored into `angle`, and `none` when `angle` was never
assigned. -/
structure Located where
  boxes : List Rect
  angleArgs : Option (Int × Int)
deriving DecidableEq, Repr

/-- The loop body of `processContours` for one contour. -/
def processContour (yOffset : Int) (acc : Located) (contour : Contour) : Located :=
  let rectangleBorder := boundingRect contour
  if rectangleBorder.area > 100 then
    let rectangleBorder : Rect := { rectangleBorder with y := rectangleBorder.y + yOffset }
    let midpointX := rectangleBorder.x + rectangleBorder.width.tdiv 2
    let midpointY := rectangleBorder.y + rectangleBorder.height.tdiv 2
    ⟨acc.boxes ++ [rectangleBorder], some (midpointY, midpointX)⟩
  else acc

/-- The function `processContours`: every contour is visited in order. -/
def processContours (contours : List Contour) (yOffset : Int) : Located :=
  contours.foldl (processContour yOffset) ⟨[], none⟩

/-! ## `processImage` (lines 60-238) -/

/-- Conversion `double → int`: truncation toward zero. -/
def toInt (q : ℚ) : Int := if 0 ≤ q then Rat.floor q else -Rat.floor (-q)

/-- Line 67: `int croppedTopHeight = height * 0.4`. -/
def croppedTopHeight (height : Int) : Int := toInt ((height : ℚ) * (4 / 10))

/-- Line 68: `int remainingHeight = height * 0.5`. -/
def remainingHeight (height : Int) : Int := toInt ((height : ℚ) * (5 / 10))

/-- Line 71: `cv::Rect roi(0, croppedTopHeight, result.cols, remainingHeight)`. -/
def roi (f : Frame) : Rect :=
  ⟨0, croppedTopHeight f.rows, f.cols, remainingHeight f.rows⟩

/-- Line 129: `int yOffset = height * 0.4`. -/
def yOffset (height : Int) : Int := toInt ((height : ℚ) * (4 / 10))

/-- Line 136: `int midX = result.cols / 2`. -/
def midX (f : Frame) : Int := f.cols.tdiv 2

/-- Lines 148-154 and 157-163: the marker is present when the contour list
is not empty and its first contour is not empty; its point is then
`contours[0][0]`. -/
def firstPoint : List Contour → Option Point
  | (p :: _) :: _ => some p
  | _ => none

/-- The flag `bluePresent`. -/
def bluePresent (f : Frame) : Bool := (firstPoint f.blueContours).isSome

/-- The flag `yellowPresent`. -/
def yellowPresent (f : Frame) : Bool := (firstPoint f.yellowContours).isSome

/-- The variable `blueX`: `0` unless the blue marker is present. -/
def blueX (f : Frame) : Int :=
  match firstPoint f.blueContours with
  | some p => p.x
  | none => 0

/-- The variable `yellowX`: `0` unless the yellow marker is present. -/
def yellowX (f : Frame) : Int :=
  match firstPoint f.yellowContours with
  | some p => p.x
  | none => 0

/-- Lines 165-235: the update of the three globals, given the two presence
flags, the two x-coordinates and `midX`. -/
def steer (st : State) (midX : Int) (bluePresent yellowPresent : Bool)
    (blueX yellowX : Int) : State :=
  if bluePresent && yellowPresent then
    let st := { st with blueCount := 0 }
    if blueX > midX ∧ yellowX < midX then
      let st := { st with clockWise := false }
      if |midX - yellowX| > |blueX - midX| then
        { st with steeringAngle :=
            ((|(midX - yellowX) - (blueX - midX)| : Int) : ℚ) * (12 / 100) / (midX : ℚ) }
      else
        { st with steeringAngle :=
            ((|(midX - yellowX) - (blueX - midX)| : Int) : ℚ) * (-(12 / 100)) / (midX : ℚ) }
    else if blueX < midX ∧ yellowX > midX then
      let st := { st with clockWise := true }
      if |midX - blueX| > |yellowX - midX| then
        { st with steeringAngle :=
            ((|(midX - blueX) - (yellowX - midX)| : Int) : ℚ) * (-(12 / 100)) / (midX : ℚ) }
      else
        { st with steeringAngle :=
            ((|(midX - blueX) - (yellowX - midX)| : Int) : ℚ) * (12 / 100) / (midX : ℚ) }
    else st
  else if bluePresent && !yellowPresent then
    let st := { st with blueCount := st.blueCount + 1 }
    if st.clockWise then
      if st.blueCount > 30 then { st with steeringAngle := -(15 / 100) }
      else { st with steeringAngle := -(1 / 10) }
    else if !st.clockWise then { st with steeringAngle := 1 / 10 }
    else st
  else if yellowPresent && !bluePresent then
    if !st.clockWise then { st with steeringAngle := 1 / 10 }
    else if st.clockWise then { st with steeringAngle := -(1 / 10) }
    else st
  else st

/-- Everything one call of `processImage` produces: the region of interest,
the two `processContours` results and the globals after the call. -/
structure Output where
  roi : Rect
  blue : Located
  yellow : Located
  state : State
deriving Repr

/-- The function `processImage`, run on the globals `st`. -/
def processImage (st : State) (f : Frame) : Output :=
  { roi := roi f
    blue := processContours f.blueContours (yOffset f.rows)
    yellow := processContours f.yellowContours (yOffset f.rows)
    state := steer st (midX f) (bluePresent f) (yellowPresent f) (blueX f) (yellowX f) }

/-- The loop of `main` (lines 288-351): `processImage` once per frame, in
arrival order, on the globals the previous call left. -/
def run (st : State) (frames : List Frame) : State :=
  frames.foldl (fun s f => (processImage s f).state) st

/-! ## Frame classes used by the steering update -/

/-- Both markers are present (`bluePresent && yellowPresent`). -/
def BothPresent (f : Frame) : Prop := bluePresent f = true ∧ yellowPresent f = true

/-- Only the blue marker, marker A, is present (`bluePresent && !yellowPresent`). -/
def OnlyAPresent (f : Frame) : Prop := bluePresent f = true ∧ yellowPresent f = false

/-- Only the yellow marker, marker B, is present (`yellowPresent && !bluePresent`). -/
def OnlyBPresent (f : Frame) : Prop := bluePresent f = false ∧ yellowPresent f = true

/-- No marker is present. -/
def NeitherPresent (f : Frame) : Prop := bluePresent f = false ∧ yellowPresent f = false

instance (f : Frame) : Decidable (BothPresent f) := by unfold BothPresent; infer_instance
instance (f : Frame) : Decidable (OnlyAPresent f) := by unfold OnlyAPresent; infer_instance
instance (f : Frame) : Decidable (OnlyBPresent f) := by unfold OnlyBPresent; infer_instance
instance (f : Frame) : Decidable (NeitherPresent f) := by unfold NeitherPresent; infer_instance

/-- The rectangle `processContours` draws for a bounding box that passes the
area test. -/
def shifted (yOffset : Int) (r : Rect) : Rect := { r with y := r.y + yOffset }

/-! ## The dropout counter as the spec words it and as the code keeps it -/

/-- Follows the spec's words ("consecutive-frame count"): the number of
consecutive frames, ending at the last frame of `frames`, in which marker A
is present and marker B is absent. -/
def trailingOnlyA (frames : List Frame) : Nat :=
  (frames.reverse.takeWhile (fun f => decide (OnlyAPresent f))).length

/-- The number of frames with only marker A present among the frames that
follow the last frame with both markers present (among all frames when no
frame has both). -/
def onlyASinceBoth (frames : List Frame) : Nat :=
  ((frames.reverse.takeWhile (fun f => !decide (BothPresent f))).filter
    (fun f => decide (OnlyAPresent f))).length

/-- Every present marker's x-coordinate lies in `[0, cols)`. -/
def InImage (f : Frame) : Prop :=
  (bluePresent f = true → 0 ≤ blueX f ∧ blueX f < f.cols) ∧
  (yellowPresent f = true → 0 ≤ yellowX f ∧ yellowX f < f.cols)

instance (f : Frame) : Decidable (InImage f) := by unfold InImage; infer_instance

/-! ## The marker observation as the spec words it -/

/-- Follows the spec's words ("first boundary point of the first surviving
contour"): the first point of the first contour whose bounding-box area
exceeds 100, and `none` when no contour has such an area. -/
def survivingPoint (contours : List Contour) : Option Point :=
  firstPoint (contours.filter (fun c => decide ((boundingRect c).area > 100)))

/-! ## Sample frames -/

/-- A contour whose bounding box is 10 wide and 10 high: area exactly 100. -/
def speck : Contour := [⟨0, 0⟩, ⟨9, 0⟩, ⟨9, 9⟩, ⟨0, 9⟩]

/-- A contour whose bounding box is 21 wide and 31 high, first point at
column `x`. -/
def cone (x : Int) : Contour := [⟨x, 10⟩, ⟨x, 40⟩, ⟨x + 20, 40⟩, ⟨x + 20, 10⟩]

/-- A 640x480 frame with the given contour lists. -/
def frame640 (blue yellow : List Contour) : Frame := ⟨480, 640, blue, yellow⟩

/-! ## Basic facts -/

theorem firstPoint_eq_none_of_empty {cs : List Contour}
    (h : cs = [] ∨ ∃ rest, cs = [] :: rest) : firstPoint cs = none := by
  rcases h with h | ⟨rest, h⟩ <;> subst h <;> rfl

theorem firstPoint_eq_none_iff (cs : List Contour) :
    firstPoint cs = none ↔ (cs = [] ∨ ∃ rest, cs = [] :: rest) := by
  constructor
  · intro h
    match cs, h with
    | [], _ => exact Or.inl rfl
    | [] :: rest, _ => exact Or.inr ⟨rest, rfl⟩
    | (p :: ps) :: rest, h => simp [firstPoint] at h
  · exact firstPoint_eq_none_of_empty

theorem run_nil (st : State) : run st [] = st := rfl

theorem run_cons (st : State) (f : Frame) (fs : List Frame) :
    run st (f :: fs) = run (processImage st f).state fs := rfl

theorem run_snoc (st : State) (fs : List Frame) (f : Frame) :
    run st (fs ++ [f]) = (processImage (run st fs) f).state := by
  simp [run, List.foldl_append]

theorem state_neither (st : State) (f : Frame) (h : NeitherPresent f) :
    (processImage st f).state = st := by
  obtain ⟨hb, hy⟩ := h
  simp [processImage, steer, hb, hy]

theorem state_onlyB (st : State) (f : Frame) (h : OnlyBPresent f) :
    (processImage st f).state =
      { st with steeringAngle := if st.clockWise then -(1 / 10) else 1 / 10 } := by
  obtain ⟨hb, hy⟩ := h
  cases hc : st.clockWise <;> simp [processImage, steer, hb, hy, hc]

theorem state_onlyA (st : State) (f : Frame) (h : OnlyAPresent f) :
    (processImage st f).state =
      { st with
        blueCount := st.blueCount + 1
        steeringAngle :=
          if st.clockWise then (if st.blueCount + 1 > 30 then -(15 / 100) else -(1 / 10))
          else 1 / 10 } := by
  obtain ⟨hb, hy⟩ := h
  cases hc : st.clockWise <;> simp [processImage, steer, hb, hy, hc]
  split <;> rfl

theorem state_both_sym (st : State) (f : Frame) (h : BothPresent f)
    (hccw : ¬ (blueX f > midX f ∧ yellowX f < midX f))
    (hcw : ¬ (blueX f < midX f ∧ yellowX f > midX f)) :
    (processImage st f).state = { st with blueCount := 0 } := by
  obtain ⟨hb, hy⟩ := h
  simp only [processImage, steer, hb, hy, Bool.and_self, if_true]
  rw [if_neg hccw, if_neg hcw]

theorem run_onlyB (st : State) (fs : List Frame) (h : ∀ g ∈ fs, OnlyBPresent g) :
    (run st fs).blueCount = st.blueCount ∧ (run st fs).clockWise = st.clockWise := by
  induction fs generalizing st with
  | nil => exact ⟨rfl, rfl⟩
  | cons g gs ih =>
    have hg := h g (List.mem_cons_self g gs)
    have := ih (processImage st g).state (fun k hk => h k (List.mem_cons_of_mem g hk))
    rw [run_cons, this.1, this.2, state_onlyB st g hg]
    exact ⟨rfl, rfl⟩

theorem run_onlyA (st : State) (fs : List Frame) (h : ∀ g ∈ fs, OnlyAPresent g) :
    (run st fs).blueCount = st.blueCount + fs.length ∧
      (run st fs).clockWise = st.clockWise := by
  induction fs generalizing st with
  | nil => simp [run_nil]
  | cons g gs ih =>
    have hg := h g (List.mem_cons_self g gs)
    have := ih (processImage st g).state (fun k hk => h k (List.mem_cons_of_mem g hk))
    rw [run_cons, this.1, this.2, state_onlyA st g hg]
    refine ⟨?_, by cases st.clockWise <;> rfl⟩
    simp only [List.length_cons, Nat.cast_add, Nat.cast_one]
    ring

theorem state_both_ccw (st : State) (f : Frame) (h : BothPresent f)
    (hA : blueX f > midX f) (hB : yellowX f < midX f) :
    (processImage st f).state =
      { steeringAngle :=
          if |midX f - yellowX f| > |blueX f - midX f| then
            ((|(midX f - yellowX f) - (blueX f - midX f)| : Int) : ℚ) * (12 / 100) / (midX f : ℚ)
          else
            ((|(midX f - yellowX f) - (blueX f - midX f)| : Int) : ℚ) * (-(12 / 100))
              / (midX f : ℚ)
        blueCount := 0
        clockWise := false } := by
  obtain ⟨hb, hy⟩ := h
  simp only [processImage, steer, hb, hy, Bool.and_self, if_true]
  rw [if_pos ⟨hA, hB⟩]
  split <;> rfl

theorem state_both_cw (st : State) (f : Frame) (h : BothPresent f)
    (hA : blueX f < midX f) (hB : yellowX f > midX f) :
    (processImage st f).state =
      { steeringAngle :=
          if |midX f - blueX f| > |yellowX f - midX f| then
            ((|(midX f - blueX f) - (yellowX f - midX f)| : Int) : ℚ) * (-(12 / 100))
              / (midX f : ℚ)
          else
            ((|(midX f - blueX f) - (yellowX f - midX f)| : Int) : ℚ) * (12 / 100) / (midX f : ℚ)
        blueCount := 0
        clockWise := true } := by
  obtain ⟨hb, hy⟩ := h
  simp only [processImage, steer, hb, hy, Bool.and_self, if_true]
  rw [if_neg (fun hh => by omega), if_pos ⟨hA, hB⟩]
  split <;> rfl

theorem toInt_of_nonneg {q : ℚ} (h : 0 ≤ q) : toInt q = ⌊q⌋ := by
  unfold toInt
  rw [if_pos h]
  rfl

theorem croppedTopHeight_eq_floor {H : Int} (hH : 0 ≤ H) :
    croppedTopHeight H = ⌊(4 / 10 : ℚ) * H⌋ := by
  have hq : (0 : ℚ) ≤ (H : ℚ) * (4 / 10) := by
    have : (0 : ℚ) ≤ (H : ℚ) := by exact_mod_cast hH
    positivity
  unfold croppedTopHeight
  rw [toInt_of_nonneg hq, mul_comm]

theorem remainingHeight_eq_floor {H : Int} (hH : 0 ≤ H) :
    remainingHeight H = ⌊(5 / 10 : ℚ) * H⌋ := by
  have hq : (0 : ℚ) ≤ (H : ℚ) * (5 / 10) := by
    have : (0 : ℚ) ≤ (H : ℚ) := by exact_mod_cast hH
    positivity
  unfold remainingHeight
  rw [toInt_of_nonneg hq, mul_comm]

theorem yOffset_eq_croppedTopHeight (H : Int) : yOffset H = croppedTopHeight H := rfl

theorem foldl_processContour_boxes (off : Int) (cs : List Contour) (acc : Located) :
    (cs.foldl (processContour off) acc).boxes =
      acc.boxes ++ ((cs.map boundingRect).filter (fun r => decide (r.area > 100))).map
        (shifted off) := by
  induction cs generalizing acc with
  | nil => simp
  | cons c cs ih =>
    rw [List.foldl_cons, ih]
    by_cases hc : (boundingRect c).area > 100
    · simp [processContour, hc, shifted]
    · simp [processContour, hc]

theorem processContours_boxes (cs : List Contour) (off : Int) :
    (processContours cs off).boxes =
      ((cs.map boundingRect).filter (fun r => decide (r.area > 100))).map (shifted off) := by
  unfold processContours
  rw [foldl_processContour_boxes]
  rfl

theorem blueCount_step (st : State) (f : Frame) :
    (processImage st f).state.blueCount =
      if BothPresent f then 0 else if OnlyAPresent f then st.blueCount + 1 else st.blueCount := by
  cases hb : bluePresent f <;> cases hy : yellowPresent f
  · rw [state_neither st f ⟨hb, hy⟩]
    simp [BothPresent, OnlyAPresent, hb, hy]
  · rw [state_onlyB st f ⟨hb, hy⟩]
    simp [BothPresent, OnlyAPresent, hb, hy]
  · rw [state_onlyA st f ⟨hb, hy⟩]
    simp [BothPresent, OnlyAPresent, hb, hy]
  · have hboth : BothPresent f := ⟨hb, hy⟩
    rw [if_pos hboth]
    simp only [processImage, steer, hb, hy, Bool.and_self, if_true]
    split_ifs <;> rfl

theorem onlyASinceBoth_snoc (fs : List Frame) (f : Frame) :
    onlyASinceBoth (fs ++ [f]) =
      if BothPresent f then 0
      else if OnlyAPresent f then onlyASinceBoth fs + 1 else onlyASinceBoth fs := by
  unfold onlyASinceBoth
  rw [List.reverse_append, List.reverse_singleton, List.singleton_append]
  by_cases hb : BothPresent f
  · simp [List.takeWhile_cons, hb]
  · by_cases ha : OnlyAPresent f
    · simp [List.takeWhile_cons, hb, ha, List.filter_cons]
    · simp [List.takeWhile_cons, hb, ha, List.filter_cons]

theorem blueCount_run_init (fs : List Frame) :
    (run State.init fs).blueCount = onlyASinceBoth fs := by
  induction fs using List.reverseRecOn with
  | nil => rfl
  | append_singleton fs f ih =>
    rw [run_snoc, blueCount_step, onlyASinceBoth_snoc, ih]
    split_ifs <;> simp

/-! ## Bounds on the angle -/

theorem gain_bound (m d : Int) (hm : 0 < m) (hd : |d| < m) :
    |((|d| : Int) : ℚ) * (12 / 100) / (m : ℚ)| < 12 / 100 ∧
    |((|d| : Int) : ℚ) * (-(12 / 100)) / (m : ℚ)| < 12 / 100 := by
  have hmq : (0 : ℚ) < (m : ℚ) := by exact_mod_cast hm
  have hx0 : (0 : ℚ) ≤ ((|d| : Int) : ℚ) := by exact_mod_cast abs_nonneg d
  have hxm : ((|d| : Int) : ℚ) < (m : ℚ) := by exact_mod_cast hd
  have hpos : 0 ≤ ((|d| : Int) : ℚ) * (12 / 100) / (m : ℚ) := by positivity
  have hlt : ((|d| : Int) : ℚ) * (12 / 100) / (m : ℚ) < 12 / 100 := by
    rw [div_lt_iff₀ hmq]
    nlinarith
  have hneg : ((|d| : Int) : ℚ) * (-(12 / 100)) / (m : ℚ)
      = -(((|d| : Int) : ℚ) * (12 / 100) / (m : ℚ)) := by ring
  constructor
  · rw [abs_of_nonneg hpos]; exact hlt
  · rw [hneg, abs_neg, abs_of_nonneg hpos]; exact hlt

theorem midX_facts_ccw (f : Frame) (h : BothPresent f) (hin : InImage f)
    (hA : blueX f > midX f) (hB : yellowX f < midX f) :
    0 < midX f ∧ |(midX f - yellowX f) - (blueX f - midX f)| < midX f := by
  have hb := hin.1 h.1
  have hy := hin.2 h.2
  have hm : midX f = f.cols / 2 := Int.tdiv_eq_ediv (by omega) (by decide)
  rw [hm] at hA hB ⊢
  refine ⟨by omega, ?_⟩
  rw [abs_lt]
  constructor <;> omega

theorem midX_facts_cw (f : Frame) (h : BothPresent f) (hin : InImage f)
    (hA : blueX f < midX f) (hB : yellowX f > midX f) :
    0 < midX f ∧ |(midX f - blueX f) - (yellowX f - midX f)| < midX f := by
  have hb := hin.1 h.1
  have hy := hin.2 h.2
  have hm : midX f = f.cols / 2 := Int.tdiv_eq_ediv (by omega) (by decide)
  rw [hm] at hA hB ⊢
  refine ⟨by omega, ?_⟩
  rw [abs_lt]
  constructor <;> omega

theorem angle_both_opposite (st : State) (f : Frame) (h : BothPresent f) (hin : InImage f)
    (hop : (blueX f > midX f ∧ yellowX f < midX f) ∨
      (blueX f < midX f ∧ yellowX f > midX f)) :
    |(processImage st f).state.steeringAngle| < 12 / 100 := by
  rcases hop with ⟨hA, hB⟩ | ⟨hA, hB⟩
  · obtain ⟨hm, hd⟩ := midX_facts_ccw f h hin hA hB
    have hg := gain_bound (midX f) _ hm hd
    rw [state_both_ccw st f h hA hB]
    dsimp only
    split
    · exact hg.1
    · exact hg.2
  · obtain ⟨hm, hd⟩ := midX_facts_cw f h hin hA hB
    have hg := gain_bound (midX f) _ hm hd
    rw [state_both_cw st f h hA hB]
    dsimp only
    split
    · exact hg.2
    · exact hg.1

theorem angle_step_bounded (st : State) (f : Frame) (hin : InImage f)
    (hst : |st.steeringAngle| ≤ 15 / 100) :
    |(processImage st f).state.steeringAngle| ≤ 15 / 100 := by
  cases hb : bluePresent f <;> cases hy : yellowPresent f
  · rw [state_neither st f ⟨hb, hy⟩]; exact hst
  · rw [state_onlyB st f ⟨hb, hy⟩]
    dsimp only
    split <;> norm_num [abs_of_pos]
  · rw [state_onlyA st f ⟨hb, hy⟩]
    dsimp only
    split_ifs <;> norm_num [abs_of_pos]
  · have hboth : BothPresent f := ⟨hb, hy⟩
    by_cases hop : (blueX f > midX f ∧ yellowX f < midX f) ∨
        (blueX f < midX f ∧ yellowX f > midX f)
    · have := angle_both_opposite st f hboth hin hop
      linarith
    · rw [state_both_sym st f hboth (fun hh => hop (Or.inl hh)) (fun hh => hop (Or.inr hh))]
      exact hst

theorem angle_run_bounded (fs : List Frame) (h : ∀ f ∈ fs, InImage f) :
    |(run State.init fs).steeringAngle| ≤ 15 / 100 := by
  induction fs using List.reverseRecOn with
  | nil => norm_num [run_nil, State.init]
  | append_singleton fs f ih =>
    rw [run_snoc]
    exact angle_step_bounded _ f (h f (by simp)) (ih (fun g hg => h g (by simp [hg])))

/-! ## Frames without markers, with one marker, with both on one side -/

/-- C6: when neither marker is present (each contour list is empty or starts
with an empty contour), `processImage` leaves the three globals as they
were: angle, direction flag and dropout counter keep their values. -/
theorem neither_present_keeps_state (st : State) (f : Frame)
    (hb : f.blueContours = [] ∨ ∃ rest, f.blueContours = [] :: rest)
    (hy : f.yellowContours = [] ∨ ∃ rest, f.yellowContours = [] :: rest) :
    bluePresent f = false ∧ yellowPresent f = false ∧
    (processImage st f).state.steeringAngle = st.steeringAngle ∧
    (processImage st f).state.clockWise = st.clockWise ∧
    (processImage st f).state.blueCount = st.blueCount ∧
    (processImage st f).state = st := by
  have h1 : bluePresent f = false := by
    simp [bluePresent, firstPoint_eq_none_of_empty hb]
  have h2 : yellowPresent f = false := by
    simp [yellowPresent, firstPoint_eq_none_of_empty hy]
  have h3 := state_neither st f ⟨h1, h2⟩
  exact ⟨h1, h2, by rw [h3], by rw [h3], by rw [h3], h3⟩

theorem neither_present_keeps_state_witness :
    ((frame640 [] [[], cone 140]).blueContours = [] ∨
      ∃ rest, (frame640 [] [[], cone 140]).blueContours = [] :: rest) ∧
    ((frame640 [] [[], cone 140]).yellowContours = [] ∨
      ∃ rest, (frame640 [] [[], cone 140]).yellowContours = [] :: rest) ∧
    (processImage ⟨-(15 / 100), 31, true⟩ (frame640 [] [[], cone 140])).state
      = ⟨-(15 / 100), 31, true⟩ :=
  ⟨Or.inl rfl, Or.inr ⟨[cone 140], rfl⟩,
    (neither_present_keeps_state ⟨-(15 / 100), 31, true⟩ (frame640 [] [[], cone 140])
      (Or.inl rfl) (Or.inr ⟨[cone 140], rfl⟩)).2.2.2.2.2⟩

/-- C7: when only marker B (yellow) is present, the dropout counter and the
direction flag are unchanged and the angle becomes `+0.1` for
counter-clockwise and `-0.1` for clockwise; after any run of such frames the
counter still has the value it had before the first of them. -/
theorem only_B_present_keeps_counter (st : State) (f : Frame) (fs : List Frame)
    (hf : OnlyBPresent f) (hfs : ∀ g ∈ fs, OnlyBPresent g) :
    (processImage st f).state.blueCount = st.blueCount ∧
    (processImage st f).state.clockWise = st.clockWise ∧
    (st.clockWise = false → (processImage st f).state.steeringAngle = 1 / 10) ∧
    (st.clockWise = true → (processImage st f).state.steeringAngle = -(1 / 10)) ∧
    (run st fs).blueCount = st.blueCount := by
  rw [state_onlyB st f hf]
  refine ⟨rfl, rfl, ?_, ?_, (run_onlyB st fs hfs).1⟩
  · intro hc; simp [hc]
  · intro hc; simp [hc]

theorem only_B_present_keeps_counter_witness :
    OnlyBPresent (frame640 [] [cone 140]) ∧
    (∀ g ∈ [frame640 [] [cone 140], frame640 [[]] [cone 300]], OnlyBPresent g) ∧
    (processImage ⟨0, 7, true⟩ (frame640 [] [cone 140])).state.steeringAngle = -(1 / 10) ∧
    (run ⟨0, 7, true⟩ [frame640 [] [cone 140], frame640 [[]] [cone 300]]).blueCount = 7 :=
  ⟨by decide, by decide,
    (only_B_present_keeps_counter ⟨0, 7, true⟩ (frame640 [] [cone 140])
      [frame640 [] [cone 140], frame640 [[]] [cone 300]] (by decide) (by decide)).2.2.2.1 rfl,
    (only_B_present_keeps_counter ⟨0, 7, true⟩ (frame640 [] [cone 140])
      [frame640 [] [cone 140], frame640 [[]] [cone 300]] (by decide) (by decide)).2.2.2.2⟩

/-- C8: when both markers are present but neither `blueX > midX && yellowX <
midX` nor `blueX < midX && yellowX > midX` holds, the angle and the
direction flag keep their previous values and the dropout counter is reset
to 0. -/
theorem both_present_same_side_holds_angle (st : State) (f : Frame)
    (h : BothPresent f)
    (hccw : ¬ (blueX f > midX f ∧ yellowX f < midX f))
    (hcw : ¬ (blueX f < midX f ∧ yellowX f > midX f)) :
    (processImage st f).state.steeringAngle = st.steeringAngle ∧
    (processImage st f).state.clockWise = st.clockWise ∧
    (processImage st f).state.blueCount = 0 := by
  rw [state_both_sym st f h hccw hcw]
  exact ⟨rfl, rfl, rfl⟩

theorem both_present_same_side_holds_angle_witness :
    BothPresent (frame640 [cone 320] [cone 500]) ∧
    ¬ (blueX (frame640 [cone 320] [cone 500]) > midX (frame640 [cone 320] [cone 500]) ∧
        yellowX (frame640 [cone 320] [cone 500]) < midX (frame640 [cone 320] [cone 500])) ∧
    ¬ (blueX (frame640 [cone 320] [cone 500]) < midX (frame640 [cone 320] [cone 500]) ∧
        yellowX (frame640 [cone 320] [cone 500]) > midX (frame640 [cone 320] [cone 500])) ∧
    (processImage ⟨-(15 / 100), 31, true⟩ (frame640 [cone 320] [cone 500])).state.steeringAngle
      = -(15 / 100) ∧
    (processImage ⟨-(15 / 100), 31, true⟩ (frame640 [cone 320] [cone 500])).state.clockWise
      = true ∧
    (processImage ⟨-(15 / 100), 31, true⟩ (frame640 [cone 320] [cone 500])).state.blueCount
      = 0 :=
  ⟨by decide, by decide, by decide,
    both_present_same_side_holds_angle ⟨-(15 / 100), 31, true⟩ (frame640 [cone 320] [cone 500])
      (by decide) (by decide) (by decide)⟩

/-- C4: when only marker A (blue) is present the dropout counter goes from
`c` to `c + 1` and the direction flag is unchanged; for clockwise the angle
is `-0.15` when `c + 1 > 30` and `-0.1` when `c + 1 ≤ 30`, for
counter-clockwise it is `+0.1`.  From a clockwise state with counter 0, the
last of `n ≥ 1` consecutive such frames yields `-0.1` for `n ≤ 30` and
`-0.15` for `n ≥ 31`. -/
theorem only_A_present_escalates (st : State) (f : Frame) (fs : List Frame)
    (hf : OnlyAPresent f) (hfs : ∀ g ∈ fs, OnlyAPresent g) (hne : fs ≠ []) :
    ((processImage st f).state.blueCount = st.blueCount + 1 ∧
      (processImage st f).state.clockWise = st.clockWise ∧
      (st.clockWise = true → st.blueCount + 1 > 30 →
        (processImage st f).state.steeringAngle = -(15 / 100)) ∧
      (st.clockWise = true → st.blueCount + 1 ≤ 30 →
        (processImage st f).state.steeringAngle = -(1 / 10)) ∧
      (st.clockWise = false → (processImage st f).state.steeringAngle = 1 / 10)) ∧
    (st.clockWise = true → st.blueCount = 0 →
      (fs.length ≤ 30 → (run st fs).steeringAngle = -(1 / 10)) ∧
      (31 ≤ fs.length → (run st fs).steeringAngle = -(15 / 100))) := by
  constructor
  · rw [state_onlyA st f hf]
    refine ⟨rfl, rfl, ?_, ?_, ?_⟩
    · intro hc hgt; simp [hc, hgt]
    · intro hc hle; simp [hc, not_lt.mpr hle]
    · intro hc; simp [hc]
  · intro hc h0
    have hsplit := List.dropLast_append_getLast hne
    have hlast : OnlyAPresent (fs.getLast hne) := hfs _ (List.getLast_mem hne)
    have hinit : ∀ g ∈ fs.dropLast, OnlyAPresent g :=
      fun g hg => hfs g (List.dropLast_subset fs hg)
    have hrun := run_onlyA st fs.dropLast hinit
    have hlen : (fs.dropLast.length : Int) + 1 = fs.length := by
      have : fs.length ≠ 0 := fun h => hne (List.length_eq_zero.mp h)
      rw [List.length_dropLast]; omega
    have hstep : (run st fs).steeringAngle =
        if (fs.length : Int) > 30 then -(15 / 100) else -(1 / 10) := by
      conv_lhs => rw [← hsplit, run_snoc, state_onlyA _ _ hlast]
      simp only [hrun.1, hrun.2, hc, h0, if_true, zero_add, hlen]
    rw [hstep]
    constructor
    · intro hle
      rw [if_neg (by omega)]
    · intro hge
      rw [if_pos (by omega)]

theorem only_A_present_escalates_witness :
    OnlyAPresent (frame640 [cone 100] []) ∧
    (∀ g ∈ List.replicate 31 (frame640 [cone 100] []), OnlyAPresent g) ∧
    List.replicate 31 (frame640 [cone 100] []) ≠ [] ∧
    (processImage ⟨0, 30, true⟩ (frame640 [cone 100] [])).state.blueCount = 30 + 1 ∧
    (run ⟨0, 0, true⟩ (List.replicate 31 (frame640 [cone 100] []))).steeringAngle
      = -(15 / 100) :=
  ⟨by decide, fun g hg => List.eq_of_mem_replicate hg ▸ (by decide), by simp,
    (only_A_present_escalates ⟨0, 30, true⟩ (frame640 [cone 100] [])
      (List.replicate 31 (frame640 [cone 100] [])) (by decide)
      (fun g hg => List.eq_of_mem_replicate hg ▸ (by decide)) (by simp)).1.1,
    ((only_A_present_escalates ⟨0, 0, true⟩ (frame640 [cone 100] [])
      (List.replicate 31 (frame640 [cone 100] [])) (by decide)
      (fun g hg => List.eq_of_mem_replicate hg ▸ (by decide)) (by simp)).2 rfl rfl).2
      (by simp)⟩

/-! ## Frames with both markers on opposite sides -/

/-- C2: when both markers are present with blue (A) strictly right of
`midX = cols / 2` and yellow (B) strictly left of it, the direction becomes
counter-clockwise, the dropout counter becomes 0, and with
`dA = |midX - bx|`, `dB = |ax - midX|` the angle is `+0.12 * |dA - dB| / midX`
when `dA > dB` and `-0.12 * |dA - dB| / midX` otherwise; for width 640,
`ax = 500`, `bx = 140` the angle is 0. -/
theorem both_present_ccw_angle (st : State) (f : Frame) (h : BothPresent f)
    (hA : blueX f > midX f) (hB : midX f > yellowX f) :
    midX f = f.cols.tdiv 2 ∧
    (processImage st f).state.clockWise = false ∧
    (processImage st f).state.blueCount = 0 ∧
    (∀ dA dB : Int, dA = |midX f - yellowX f| → dB = |blueX f - midX f| →
      (dA > dB → (processImage st f).state.steeringAngle =
        (12 / 100) * ((|dA - dB| : Int) : ℚ) / (midX f : ℚ)) ∧
      (¬ dA > dB → (processImage st f).state.steeringAngle =
        -(12 / 100) * ((|dA - dB| : Int) : ℚ) / (midX f : ℚ))) ∧
    (f.cols = 640 → blueX f = 500 → yellowX f = 140 →
      (processImage st f).state.steeringAngle = 0) := by
  rw [state_both_ccw st f h hA hB]
  have e1 : |midX f - yellowX f| = midX f - yellowX f := abs_of_pos (by omega)
  have e2 : |blueX f - midX f| = blueX f - midX f := abs_of_pos (by omega)
  refine ⟨rfl, rfl, rfl, ?_, ?_⟩
  · intro dA dB hdA hdB
    subst hdA hdB
    constructor
    · intro hgt
      rw [if_pos hgt, e1, e2]
      ring
    · intro hle
      rw [if_neg hle, e1, e2]
      ring
  · intro hW hax hbx
    have hm : midX f = 320 := by simp [midX, hW]; decide
    simp [hm, hax, hbx]

theorem both_present_ccw_angle_witness :
    BothPresent (frame640 [cone 500] [cone 100]) ∧
    blueX (frame640 [cone 500] [cone 100]) > midX (frame640 [cone 500] [cone 100]) ∧
    midX (frame640 [cone 500] [cone 100]) > yellowX (frame640 [cone 500] [cone 100]) ∧
    (processImage ⟨-(1 / 10), 5, true⟩ (frame640 [cone 500] [cone 100])).state.clockWise
      = false ∧
    (processImage ⟨-(1 / 10), 5, true⟩ (frame640 [cone 500] [cone 100])).state.blueCount = 0 :=
  ⟨by decide, by decide, by decide,
    (both_present_ccw_angle ⟨-(1 / 10), 5, true⟩ (frame640 [cone 500] [cone 100])
      (by decide) (by decide) (by decide)).2.1,
    (both_present_ccw_angle ⟨-(1 / 10), 5, true⟩ (frame640 [cone 500] [cone 100])
      (by decide) (by decide) (by decide)).2.2.1⟩

/-- C3: when both markers are present with blue (A) strictly left of `midX`
and yellow (B) strictly right of it, the direction becomes clockwise, the
dropout counter becomes 0, and with `dA = |midX - ax|`, `dB = |bx - midX|`
the angle is `-0.12 * |dA - dB| / midX` when `dA > dB` and
`+0.12 * |dA - dB| / midX` otherwise. -/
theorem both_present_cw_angle (st : State) (f : Frame) (h : BothPresent f)
    (hA : blueX f < midX f) (hB : midX f < yellowX f) :
    (processImage st f).state.clockWise = true ∧
    (processImage st f).state.blueCount = 0 ∧
    (∀ dA dB : Int, dA = |midX f - blueX f| → dB = |yellowX f - midX f| →
      (dA > dB → (processImage st f).state.steeringAngle =
        -(12 / 100) * ((|dA - dB| : Int) : ℚ) / (midX f : ℚ)) ∧
      (¬ dA > dB → (processImage st f).state.steeringAngle =
        (12 / 100) * ((|dA - dB| : Int) : ℚ) / (midX f : ℚ))) := by
  rw [state_both_cw st f h hA hB]
  have e1 : |midX f - blueX f| = midX f - blueX f := abs_of_pos (by omega)
  have e2 : |yellowX f - midX f| = yellowX f - midX f := abs_of_pos (by omega)
  refine ⟨rfl, rfl, ?_⟩
  intro dA dB hdA hdB
  subst hdA hdB
  constructor
  · intro hgt
    rw [if_pos hgt, e1, e2]
    ring
  · intro hle
    rw [if_neg hle, e1, e2]
    ring

theorem both_present_cw_angle_witness :
    BothPresent (frame640 [cone 100] [cone 500]) ∧
    blueX (frame640 [cone 100] [cone 500]) < midX (frame640 [cone 100] [cone 500]) ∧
    midX (frame640 [cone 100] [cone 500]) < yellowX (frame640 [cone 100] [cone 500]) ∧
    (processImage State.init (frame640 [cone 100] [cone 500])).state.clockWise = true ∧
    (processImage State.init (frame640 [cone 100] [cone 500])).state.blueCount = 0 :=
  ⟨by decide, by decide, by decide,
    (both_present_cw_angle State.init (frame640 [cone 100] [cone 500])
      (by decide) (by decide) (by decide)).1,
    (both_present_cw_angle State.init (frame640 [cone 100] [cone 500])
      (by decide) (by decide) (by decide)).2.1⟩

/-! ## Region of interest -/

/-- C9: for a frame of height `H ≥ 0` and width `W` the region of interest
starts at row `⌊0.4 * H⌋`, spans `⌊0.5 * H⌋` rows and the full width; it lies
inside the frame, leaves at least `H / 10` rows below it, and the offset
`processContours` adds to the `y` of every box it draws is that same start
row. -/
theorem region_of_interest (st : State) (f : Frame) (hH : 0 ≤ f.rows) :
    (processImage st f).roi.y = ⌊(4 / 10 : ℚ) * f.rows⌋ ∧
    (processImage st f).roi.height = ⌊(5 / 10 : ℚ) * f.rows⌋ ∧
    (processImage st f).roi.x = 0 ∧
    (processImage st f).roi.width = f.cols ∧
    0 ≤ (processImage st f).roi.y ∧
    0 ≤ (processImage st f).roi.height ∧
    (processImage st f).roi.y + (processImage st f).roi.height ≤ f.rows ∧
    (f.rows : ℚ) / 10 ≤
      ((f.rows - (processImage st f).roi.y - (processImage st f).roi.height : Int) : ℚ) ∧
    yOffset f.rows = (processImage st f).roi.y ∧
    (processImage st f).blue.boxes =
      ((f.blueContours.map boundingRect).filter (fun r => decide (r.area > 100))).map
        (fun r => { r with y := r.y + (processImage st f).roi.y }) ∧
    (processImage st f).yellow.boxes =
      ((f.yellowContours.map boundingRect).filter (fun r => decide (r.area > 100))).map
        (fun r => { r with y := r.y + (processImage st f).roi.y }) := by
  have hy : (processImage st f).roi.y = ⌊(4 / 10 : ℚ) * f.rows⌋ :=
    croppedTopHeight_eq_floor hH
  have hh : (processImage st f).roi.height = ⌊(5 / 10 : ℚ) * f.rows⌋ :=
    remainingHeight_eq_floor hH
  have hHq : (0 : ℚ) ≤ (f.rows : ℚ) := by exact_mod_cast hH
  have a1 : ((⌊(4 / 10 : ℚ) * f.rows⌋ : Int) : ℚ) ≤ (4 / 10 : ℚ) * f.rows := Int.floor_le _
  have b1 : ((⌊(5 / 10 : ℚ) * f.rows⌋ : Int) : ℚ) ≤ (5 / 10 : ℚ) * f.rows := Int.floor_le _
  have a0 : 0 ≤ ⌊(4 / 10 : ℚ) * f.rows⌋ := Int.floor_nonneg.mpr (by positivity)
  have b0 : 0 ≤ ⌊(5 / 10 : ℚ) * f.rows⌋ := Int.floor_nonneg.mpr (by positivity)
  have hoff : yOffset f.rows = (processImage st f).roi.y := rfl
  refine ⟨hy, hh, rfl, rfl, ?_, ?_, ?_, ?_, hoff, ?_, ?_⟩
  · rw [hy]; exact a0
  · rw [hh]; exact b0
  · rw [hy, hh]
    have : ((⌊(4 / 10 : ℚ) * f.rows⌋ + ⌊(5 / 10 : ℚ) * f.rows⌋ : Int) : ℚ) ≤ (f.rows : ℚ) := by
      push_cast; linarith
    exact_mod_cast this
  · rw [hy, hh]
    push_cast; linarith
  · rw [← hoff]
    exact processContours_boxes f.blueContours (yOffset f.rows)
  · rw [← hoff]
    exact processContours_boxes f.yellowContours (yOffset f.rows)

theorem region_of_interest_witness :
    (0 : Int) ≤ (frame640 [cone 100] []).rows ∧
    (processImage State.init (frame640 [cone 100] [])).roi.y
      = ⌊(4 / 10 : ℚ) * (frame640 [cone 100] []).rows⌋ ∧
    (processImage State.init (frame640 [cone 100] [])).roi.y
      + (processImage State.init (frame640 [cone 100] [])).roi.height
      ≤ (frame640 [cone 100] []).rows :=
  ⟨by decide,
    (region_of_interest State.init (frame640 [cone 100] []) (by decide)).1,
    (region_of_interest State.init (frame640 [cone 100] []) (by decide)).2.2.2.2.2.2.1⟩

/-! ## The dropout counter over a run of frames -/

/-- C5, as stated, fails: after a frame with only marker A followed by a
frame without markers the counter is 1, while no frame at the end of the run
has only marker A. -/
theorem dropout_counter_survives_empty_frame :
    (run State.init [frame640 [cone 100] [], frame640 [] []]).blueCount = 1 ∧
    trailingOnlyA [frame640 [cone 100] [], frame640 [] []] = 0 ∧
    (run State.init [frame640 [cone 100] [], frame640 [] []]).blueCount ≠
      (trailingOnlyA [frame640 [cone 100] [], frame640 [] []] : Int) := by
  have h1 : (run State.init [frame640 [cone 100] [], frame640 [] []]).blueCount = 1 := by
    rw [blueCount_run_init]; decide
  have h2 : trailingOnlyA [frame640 [cone 100] [], frame640 [] []] = 0 := by decide
  refine ⟨h1, h2, ?_⟩
  rw [h1, h2]; decide

/-- C5, amended: for every run of frames from the initial state, the dropout
counter after the last frame is the number of frames with only marker A
present since the last frame with both markers present (since the start
when there was none); frames with only marker B and frames without markers
leave it as it is. -/
theorem dropout_counter_counts_since_both (fs : List Frame) :
    (run State.init fs).blueCount = onlyASinceBoth fs ∧
    (∀ f, BothPresent f → (run State.init (fs ++ [f])).blueCount = 0) ∧
    (∀ f, OnlyAPresent f →
      (run State.init (fs ++ [f])).blueCount = (run State.init fs).blueCount + 1) ∧
    (∀ f, OnlyBPresent f ∨ NeitherPresent f →
      (run State.init (fs ++ [f])).blueCount = (run State.init fs).blueCount) := by
  refine ⟨blueCount_run_init fs, ?_, ?_, ?_⟩
  · intro f hf
    rw [run_snoc, blueCount_step, if_pos hf]
  · intro f hf
    have hnb : ¬ BothPresent f := fun hb => by
      have := hb.2; rw [hf.2] at this; exact Bool.noConfusion this
    rw [run_snoc, blueCount_step, if_neg hnb, if_pos hf]
  · intro f hf
    have hnb : ¬ BothPresent f := fun hb => by
      rcases hf with hf | hf
      · have := hb.1; rw [hf.1] at this; exact Bool.noConfusion this
      · have := hb.1; rw [hf.1] at this; exact Bool.noConfusion this
    have hna : ¬ OnlyAPresent f := fun ha => by
      rcases hf with hf | hf
      · have := ha.1; rw [hf.1] at this; exact Bool.noConfusion this
      · have := ha.1; rw [hf.1] at this; exact Bool.noConfusion this
    rw [run_snoc, blueCount_step, if_neg hnb, if_neg hna]

theorem dropout_counter_counts_since_both_witness :
    (run State.init [frame640 [cone 100] [], frame640 [] [cone 500], frame640 [cone 100] []]
      ).blueCount = 2 ∧
    (run State.init ([frame640 [cone 100] [], frame640 [] [cone 500]]
      ++ [frame640 [cone 500] [cone 100]])).blueCount = 0 :=
  ⟨(dropout_counter_counts_since_both
      [frame640 [cone 100] [], frame640 [] [cone 500], frame640 [cone 100] []]).1.trans
      (by decide),
    (dropout_counter_counts_since_both
      [frame640 [cone 100] [], frame640 [] [cone 500]]).2.1
      (frame640 [cone 500] [cone 100]) (by decide)⟩

/-! ## Bound on the angle over a run of frames -/

/-- C10: for every frame width `W` and every run of frames from the initial
state in which each present marker's x lies in `[0, W)`, the angle after
every frame satisfies `|angle| ≤ 0.15`; and after a frame with both markers
on opposite sides of `midX` (the frames in which the both-present branch
assigns the angle) `midX = W / 2 > 0`, `|dA - dB| < midX` and
`|angle| < 0.12`. -/
theorem steering_angle_bounded (W : Int) (fs : List Frame)
    (h : ∀ f ∈ fs, f.cols = W ∧ InImage f) :
    (∀ n, |(run State.init (fs.take n)).steeringAngle| ≤ 15 / 100) ∧
    (∀ n f, fs[n]? = some f → BothPresent f →
      ((blueX f > midX f ∧ yellowX f < midX f) ∨ (blueX f < midX f ∧ yellowX f > midX f)) →
      midX f = W.tdiv 2 ∧ 0 < midX f ∧
      abs (|midX f - yellowX f| - |blueX f - midX f|) < midX f ∧
      |(run State.init (fs.take (n + 1))).steeringAngle| < 12 / 100) := by
  constructor
  · intro n
    exact angle_run_bounded _ (fun g hg => (h g (List.mem_of_mem_take hg)).2)
  · intro n f hn hboth hop
    have hmem : f ∈ fs := List.getElem?_mem hn
    obtain ⟨hW, hin⟩ := h f hmem
    refine ⟨by rw [← hW]; rfl, ?_, ?_, ?_⟩
    · rcases hop with ⟨hA, hB⟩ | ⟨hA, hB⟩
      · exact (midX_facts_ccw f hboth hin hA hB).1
      · exact (midX_facts_cw f hboth hin hA hB).1
    · rcases hop with ⟨hA, hB⟩ | ⟨hA, hB⟩
      · have := (midX_facts_ccw f hboth hin hA hB).2
        rwa [abs_of_pos (show 0 < midX f - yellowX f by omega),
          abs_of_pos (show 0 < blueX f - midX f by omega)]
      · have := (midX_facts_cw f hboth hin hA hB).2
        rw [abs_of_neg (show midX f - yellowX f < 0 by omega),
          abs_of_neg (show blueX f - midX f < 0 by omega), abs_sub_comm]
        have e : -(blueX f - midX f) - -(midX f - yellowX f)
            = (midX f - blueX f) - (yellowX f - midX f) := by ring
        rwa [e]
    · rw [List.take_succ, hn, Option.toList_some, run_snoc]
      exact angle_both_opposite _ f hboth hin hop

theorem steering_angle_bounded_witness :
    (∀ f ∈ [frame640 [cone 100] [], frame640 [cone 500] [cone 100]],
      f.cols = 640 ∧ InImage f) ∧
    |(run State.init
      ([frame640 [cone 100] [], frame640 [cone 500] [cone 100]].take 1)).steeringAngle|
      ≤ 15 / 100 ∧
    |(run State.init
      ([frame640 [cone 100] [], frame640 [cone 500] [cone 100]].take (1 + 1))).steeringAngle|
      < 12 / 100 :=
  ⟨by decide,
    (steering_angle_bounded 640 [frame640 [cone 100] [], frame640 [cone 500] [cone 100]]
      (by decide)).1 1,
    ((steering_angle_bounded 640 [frame640 [cone 100] [], frame640 [cone 500] [cone 100]]
      (by decide)).2 1 (frame640 [cone 500] [cone 100]) rfl (by decide)
      (Or.inl (by decide))).2.2.2⟩

/-! ## Small contours and the marker observation -/

/-- C1, evaluated on the code: a blue contour whose bounding-box area is
exactly 100 is skipped by `processContours` (no box is drawn) and yet makes
`bluePresent` true, so from the initial state the counter becomes 1 and the
angle `0.1`; and when such a contour precedes a larger one, `blueX` is taken
from the small contour, not from the first one whose area exceeds 100. -/
theorem small_contour_reaches_steering :
    (boundingRect speck).area = 100 ∧
    survivingPoint [speck] = none ∧
    (processImage State.init (frame640 [speck] [])).blue.boxes = [] ∧
    bluePresent (frame640 [speck] []) = true ∧
    (processImage State.init (frame640 [speck] [])).state = ⟨1 / 10, 1, false⟩ ∧
    (processImage State.init (frame640 [speck] [])).state ≠ State.init ∧
    survivingPoint [speck, cone 500] = some ⟨500, 10⟩ ∧
    blueX (frame640 [speck, cone 500] [cone 100]) = 0 ∧
    (processImage State.init (frame640 [speck, cone 500] [cone 100])).state.steeringAngle = 0 ∧
    (processImage State.init (frame640 [cone 500] [cone 100])).state.steeringAngle
      = 3 / 200 := by
  have hA : OnlyAPresent (frame640 [speck] []) := by decide
  have hB : BothPresent (frame640 [speck, cone 500] [cone 100]) := by decide
  have hC : BothPresent (frame640 [cone 500] [cone 100]) := by decide
  refine ⟨by decide, by decide, by decide, by decide, ?_, ?_, by decide, by decide, ?_, ?_⟩
  · rw [state_onlyA _ _ hA]
    simp [State.init]
  · rw [state_onlyA _ _ hA]
    simp [State.init]
  · rw [state_both_sym _ _ hB (by decide) (by decide)]
    rfl
  · rw [state_both_ccw _ _ hC (by decide) (by decide)]
    have hm : midX (frame640 [cone 500] [cone 100]) = 320 := by decide
    have hb : blueX (frame640 [cone 500] [cone 100]) = 500 := by decide
    have hy : yellowX (frame640 [cone 500] [cone 100]) = 100 := by decide
    simp only [hm, hb, hy]
    norm_num

end SteeringAlgorithm
